import Mathlib

/-!
Shallow embedding of the task-manager core (src/App.tsx): the task
lifecycle operations, the notification scheduler and the statistics
engine, with JavaScript `Date` values modelled as epoch milliseconds
(`Int`) in a fixed-offset, DST-free time model.
-/

namespace TaskManager

/-- Epoch milliseconds, the value of a JavaScript `Date`. -/
abbrev Time := Int

def msPerDay : Int := 86400000

def msPerHour : Int := 3600000

def msPerMinute : Int := 60000

/-- The `Task` record type of src/App.tsx (lines 10-18).  `completionDate`
is optional there (`completionDate?: Date`), hence `Option Time` here. -/
structure Task where
  id : Int
  name : String
  description : String
  deadlineDate : Time
  safeDate : Time
  completed : Bool
  completionDate : Option Time
  deriving Repr, DecidableEq

/-- date-fns `differenceInDays(dateLeft, dateRight)`: the number of full
days between the two instants, truncated toward zero.  In a DST-free
model this is exactly truncating division of the millisecond difference
by `msPerDay`. -/
def differenceInDays (dateLeft dateRight : Time) : Int :=
  Int.tdiv (dateLeft - dateRight) msPerDay

/-- date-fns `isAfter(date, dateToCompare)`. -/
def isAfter (date dateToCompare : Time) : Bool :=
  dateToCompare < date

/-- JavaScript `Math.ceil` applied to a value that is already an integer
(as in `getRemainingDays`, where `differenceInDays` returns an integer):
the identity. -/
def mathCeilInt (n : Int) : Int := n

/-- `getRemainingDays(deadline)` (App.tsx lines 20-23):
`Math.ceil(differenceInDays(deadline, currentDate))`, with the implicit
`new Date()` made an explicit `now` argument. -/
def getRemainingDays (deadline : Time) (now : Time) : Int :=
  mathCeilInt (differenceInDays deadline now)

/-- `new Date(now)` followed by `setHours(h, m, 0, 0)`: the time-of-day
is replaced on the current date. -/
def setHours (now : Time) (h m : Int) : Time :=
  msPerDay * Int.fdiv now msPerDay + h * msPerHour + m * msPerMinute

/-- One call to `Notifee.createTriggerNotification`: a title, a body and
a timestamp trigger. -/
structure NotificationRequest where
  title : String
  body : String
  timestamp : Time
  deriving Repr, DecidableEq

/-- `scheduleNotifications(task)` (App.tsx lines 26-98), with the
implicit `new Date()` made an explicit `now` argument.  When
`daysLeft > 0` it emits a daily reminder for each of 08:00, 12:00 and
18:00 of today's date, then unconditionally one request triggered at
`task.safeDate` and one at `task.deadlineDate`. -/
def scheduleNotifications (task : Task) (now : Time) : List NotificationRequest :=
  let daysLeft := getRemainingDays task.deadlineDate now
  let daily : List NotificationRequest :=
    if daysLeft > 0 then
      [(8 : Int), 12, 18].map (fun h =>
        { title := "Task Reminder"
          body := "Task \x22" ++ task.name ++ "\x22 is due in " ++ toString daysLeft ++
            " day(s). Keep working toward the deadline!"
          timestamp := setHours now h 0 })
    else []
  daily ++
    [ { title := "Task Reminder"
        body := "Task \x22" ++ task.name ++ "\x22 is due today. Please complete it!"
        timestamp := task.safeDate },
      { title := "Task Deadline Reminder"
        body := "Task \x22" ++ task.name ++ "\x22 is due soon. " ++ toString daysLeft ++
          " days left until the deadline."
        timestamp := task.deadlineDate } ]

/-- The four classification buckets of the stats screen. -/
inductive Bucket where
  | beforeSafeDate
  | onSafeDate
  | onDeadline
  | afterDeadline
  deriving Repr, DecidableEq

/-- The per-task classification chain inside `getTaskStats`
(App.tsx lines 249-261): guarded on `task.completionDate` being present,
then a first-match-wins if/else-if cascade incrementing at most one
bucket counter. -/
def classifyCompleted (task : Task) : Option Bucket :=
  match task.completionDate with
  | none => none
  | some completionDate =>
    if completionDate < task.safeDate then some .beforeSafeDate
    else if differenceInDays completionDate task.safeDate = 0 then some .onSafeDate
    else if differenceInDays completionDate task.deadlineDate = 0 then some .onDeadline
    else if isAfter completionDate task.deadlineDate then some .afterDeadline
    else none

/-- The record returned by `getTaskStats`.  `completionRate` is computed
with exact rational arithmetic in place of JavaScript number division. -/
structure Stats where
  totalTasks : Nat
  completedCount : Nat
  completionRate : Rat
  beforeSafeDate : Nat
  onSafeDate : Nat
  onDeadline : Nat
  afterDeadline : Nat
  stillIncompleteAfterDeadline : Nat
  deriving Repr, DecidableEq

/-- `getTaskStats()` (App.tsx lines 235-279), with the implicit `tasks`
prop and `new Date()` made explicit arguments.  Each bucket counter
counts the completed tasks the cascade `classifyCompleted` puts in that
bucket. -/
def getTaskStats (tasks : List Task) (now : Time) : Stats :=
  let completedTasks := tasks.filter (·.completed)
  let totalTasks := tasks.length
  let completedCount := completedTasks.length
  { totalTasks := totalTasks
    completedCount := completedCount
    completionRate :=
      if totalTasks ≠ 0 then ((completedCount : Rat) / (totalTasks : Rat)) * 100 else 0
    beforeSafeDate := completedTasks.countP (fun t => classifyCompleted t = some .beforeSafeDate)
    onSafeDate := completedTasks.countP (fun t => classifyCompleted t = some .onSafeDate)
    onDeadline := completedTasks.countP (fun t => classifyCompleted t = some .onDeadline)
    afterDeadline := completedTasks.countP (fun t => classifyCompleted t = some .afterDeadline)
    stillIncompleteAfterDeadline :=
      tasks.countP (fun t => !t.completed && isAfter now t.deadlineDate) }

/-- `markAsCompleted(id)` (App.tsx lines 355-363): maps over the
collection, replacing every task whose id matches with a copy having
`completed = true` and `completionDate = now`; the persistence write is
outside the embedded state. -/
def markAsCompleted (now : Time) (id : Int) (tasks : List Task) : List Task :=
  tasks.map (fun task =>
    if task.id = id then { task with completed := true, completionDate := some now } else task)

/-- `restoreTask(id)` (App.tsx lines 365-373). -/
def restoreTask (id : Int) (tasks : List Task) : List Task :=
  tasks.map (fun task =>
    if task.id = id then { task with completed := false, completionDate := none } else task)

/-- `addTask(task)` (App.tsx lines 452-458): forces `completed = false`
on the argument, then appends it to the collection. -/
def addTask (task : Task) (tasks : List Task) : List Task :=
  tasks ++ [{ task with completed := false }]

/-- `editTask(updatedTask)` (App.tsx lines 460-467): replaces every task
whose id matches with `{ ...updatedTask, completed: task.completed }` —
`completed` is copied from the existing record, while every other field,
`completionDate` included, comes from `updatedTask`. -/
def editTask (updatedTask : Task) (tasks : List Task) : List Task :=
  tasks.map (fun task =>
    if task.id = updatedTask.id then { updatedTask with completed := task.completed } else task)

/-- `deleteTask(taskId)` (App.tsx lines 468-472). -/
def deleteTask (taskId : Int) (tasks : List Task) : List Task :=
  tasks.filter (fun task => task.id ≠ taskId)

/-- `handleAddTask` on the add path (App.tsx lines 181-198, no
`initialValues`): rejects an empty name or description, otherwise builds
a task with `id = new Date().getTime()` and no `completed`/
`completionDate` fields (both absent, i.e. falsy/undefined) and passes
it to `addTask`. -/
def handleAddTask (now : Time) (name description : String)
    (deadlineDate safeDate : Time) (tasks : List Task) : List Task :=
  if name = "" ∨ description = "" then tasks
  else addTask
    { id := now, name := name, description := description,
      deadlineDate := deadlineDate, safeDate := safeDate,
      completed := false, completionDate := none } tasks

/-- `handleAddTask` on the edit path (App.tsx lines 181-198 with
`initialValues`, wired to `editTask` at line 503): same construction but
`id = initialValues.id`, passed to `editTask`. -/
def handleEditTask (existingId : Int) (name description : String)
    (deadlineDate safeDate : Time) (tasks : List Task) : List Task :=
  if name = "" ∨ description = "" then tasks
  else editTask
    { id := existingId, name := name, description := description,
      deadlineDate := deadlineDate, safeDate := safeDate,
      completed := false, completionDate := none } tasks

/-- A user-level lifecycle operation on the collection. -/
inductive Op where
  | add (now : Time) (name description : String) (deadlineDate safeDate : Time)
  | edit (id : Int) (name description : String) (deadlineDate safeDate : Time)
  | complete (now : Time) (id : Int)
  | restore (id : Int)
  | delete (id : Int)
  deriving Repr, DecidableEq

def applyOp (tasks : List Task) : Op → List Task
  | .add now name descr dl s => handleAddTask now name descr dl s tasks
  | .edit id name descr dl s => handleEditTask id name descr dl s tasks
  | .complete now id => markAsCompleted now id tasks
  | .restore id => restoreTask id tasks
  | .delete id => deleteTask id tasks

/-- Run a sequence of lifecycle operations left to right. -/
def runOps (ops : List Op) (tasks : List Task) : List Task :=
  ops.foldl applyOp tasks

/-- The creation timestamps of the `add` operations in a sequence. -/
def addTimes (ops : List Op) : List Time :=
  ops.filterMap (fun op =>
    match op with
    | .add now _ _ _ _ => some now
    | _ => none)

/-- Whether an operation is an edit. -/
def Op.isEdit : Op → Bool
  | .edit _ _ _ _ _ => true
  | _ => false

/-- The data-model invariant of §3 of the spec:
`completed == true ⇔ completionDate is set`. -/
def completionInvariant (t : Task) : Prop :=
  t.completed = true ↔ t.completionDate.isSome = true

instance (t : Task) : Decidable (completionInvariant t) := by
  unfold completionInvariant; infer_instance

/-- Modelled from the spec's words (§4.2 step 1 and the glossary), for
comparison with `getRemainingDays`: the ceiling of the exact day-level
difference between deadline and now, `⌈(deadline - now) / msPerDay⌉`,
written as integer ceiling division. -/
def remainingDaysSpec (deadline : Time) (now : Time) : Int :=
  -(Int.fdiv (now - deadline) msPerDay)

/-- A completed task whose completion instant lies strictly between its
safe date and its deadline, on a different calendar day than either:
safe date at day 0, deadline at day 10, completed at day 5. -/
def gapTask : Task :=
  { id := 1, name := "a", description := "b",
    deadlineDate := 10 * 86400000, safeDate := 0,
    completed := true, completionDate := some (5 * 86400000) }

/-! ### Helper lemmas -/

lemma map_eq_self_of (l : List Task) (f : Task → Task) (h : ∀ t ∈ l, f t = t) :
    l.map f = l := by
  induction l with
  | nil => rfl
  | cons a l ih =>
    simp only [List.map_cons, h a (by simp)]
    rw [ih fun t ht => h t (by simp [ht])]

lemma map_map_id_eq (f : Task → Task) (h : ∀ t : Task, (f t).id = t.id) (ts : List Task) :
    (ts.map f).map Task.id = ts.map Task.id := by
  induction ts with
  | nil => rfl
  | cons a ts ih => simp [h, ih]

lemma markAsCompleted_map_id (now : Time) (i : Int) (ts : List Task) :
    (markAsCompleted now i ts).map Task.id = ts.map Task.id := by
  unfold markAsCompleted
  exact map_map_id_eq _ (fun t => by split <;> simp) ts

lemma restoreTask_map_id (i : Int) (ts : List Task) :
    (restoreTask i ts).map Task.id = ts.map Task.id := by
  unfold restoreTask
  exact map_map_id_eq _ (fun t => by split <;> simp) ts

lemma editTask_map_id (u : Task) (ts : List Task) :
    (editTask u ts).map Task.id = ts.map Task.id := by
  unfold editTask
  refine map_map_id_eq _ (fun t => ?_) ts
  split
  · simp [*]
  · rfl

lemma classify_countP_sum_le (l : List Task) :
    l.countP (fun t => classifyCompleted t = some Bucket.beforeSafeDate)
      + l.countP (fun t => classifyCompleted t = some Bucket.onSafeDate)
      + l.countP (fun t => classifyCompleted t = some Bucket.onDeadline)
      + l.countP (fun t => classifyCompleted t = some Bucket.afterDeadline)
      ≤ l.length := by
  induction l with
  | nil => simp
  | cons a l ih =>
    simp only [List.countP_cons, List.length_cons, decide_eq_true_eq]
    rcases h : classifyCompleted a with _ | b
    · simp [h]; omega
    · cases b <;> simp [h] <;> omega

/-! ### C5: remaining days -/

/-- C5, corrected claim: `getRemainingDays` returns the day-level
difference truncated toward zero (the value of date-fns
`differenceInDays`); `Math.ceil` is applied to an already-integer value
and is the identity.  For a deadline lying `k` full days (plus any
fraction below one day) ahead of `now`, with `k ≥ 0`, the result is `k`
— not `k + 1` as a real ceiling would give when the fraction is
non-zero. -/
theorem getRemainingDays_truncates (deadline now k : Int)
    (h0 : 0 ≤ k) (h1 : k * msPerDay ≤ deadline - now)
    (h2 : deadline - now < (k + 1) * msPerDay) :
    getRemainingDays deadline now = k := by
  simp only [getRemainingDays, mathCeilInt, differenceInDays, msPerDay] at h1 h2 ⊢
  rw [Int.tdiv_eq_ediv (by nlinarith) (by norm_num)]
  omega

/-- Witness for `getRemainingDays_truncates`: deadline 2025-01-10 at now
2025-01-01 (exactly 9 days apart in epoch milliseconds) yields 9. -/
theorem getRemainingDays_truncates_witness :
    getRemainingDays 1736467200000 1735689600000 = 9 :=
  getRemainingDays_truncates 1736467200000 1735689600000 9
    (by decide) (by decide) (by decide)

/-- C5, counterexample to the claim as stated: a deadline 9 days and one
hour ahead of `now = 0` gives `getRemainingDays = 9`, while the
ceiling of the exact day-level difference (`remainingDaysSpec`, the
spec's formula) is 10. -/
theorem remaining_days_not_ceiling :
    getRemainingDays (9 * 86400000 + 3600000) 0 = 9 ∧
    remainingDaysSpec (9 * 86400000 + 3600000) 0 = 10 ∧
    getRemainingDays (9 * 86400000 + 3600000) 0 ≠
      remainingDaysSpec (9 * 86400000 + 3600000) 0 := by
  decide

/-! ### C7: a completed task in no bucket -/

/-- C7: the collection `[gapTask]` contains a completed task with a
defined completion date — completed strictly after its safe date and
strictly before its deadline, on a different day than either — that is
counted in `completedCount` yet in none of the four buckets. -/
theorem completed_task_outside_all_buckets :
    gapTask.completed = true ∧
    gapTask.completionDate = some (5 * 86400000) ∧
    gapTask.safeDate < 5 * 86400000 ∧
    (5 * 86400000 : Int) < gapTask.deadlineDate ∧
    (getTaskStats [gapTask] 0).completedCount = 1 ∧
    (getTaskStats [gapTask] 0).beforeSafeDate = 0 ∧
    (getTaskStats [gapTask] 0).onSafeDate = 0 ∧
    (getTaskStats [gapTask] 0).onDeadline = 0 ∧
    (getTaskStats [gapTask] 0).afterDeadline = 0 := by
  decide

/-! ### C8: operations on a missing id are no-ops -/

/-- C8: when no task in the collection carries the requested id,
`markAsCompleted`, `restoreTask` and `deleteTask` return the collection
unchanged. -/
theorem missing_id_ops_noop (tasks : List Task) (i : Int) (now : Time)
    (h : ∀ t ∈ tasks, t.id ≠ i) :
    markAsCompleted now i tasks = tasks ∧
    restoreTask i tasks = tasks ∧
    deleteTask i tasks = tasks := by
  refine ⟨?_, ?_, ?_⟩
  · exact map_eq_self_of _ _ fun t ht => by rw [if_neg (h t ht)]
  · exact map_eq_self_of _ _ fun t ht => by rw [if_neg (h t ht)]
  · exact List.filter_eq_self.mpr fun t ht => by simpa using h t ht

/-- Witness for `missing_id_ops_noop` on a one-task collection and an
absent id. -/
theorem missing_id_ops_noop_witness :
    markAsCompleted 7 2 [gapTask] = [gapTask] ∧
    restoreTask 2 [gapTask] = [gapTask] ∧
    deleteTask 2 [gapTask] = [gapTask] :=
  missing_id_ops_noop [gapTask] 2 7 (by decide)

/-! ### C10: re-completing overwrites the completion date -/

/-- C10: `markAsCompleted` is unconditional on the current state of the
matching task: any member of the collection carrying the requested id —
already completed or not — is replaced by a copy with
`completed = true` and `completionDate = now`, so re-completing
overwrites the previously stored completion date. -/
theorem markAsCompleted_overwrites_completionDate (tasks : List Task) (now : Time)
    (i : Int) (t : Task) (ht : t ∈ tasks) (hid : t.id = i) :
    { t with completed := true, completionDate := some now } ∈ markAsCompleted now i tasks := by
  unfold markAsCompleted
  have hmem := List.mem_map_of_mem
    (fun task => if task.id = i then { task with completed := true, completionDate := some now }
      else task) ht
  simpa [hid] using hmem

/-- A task already completed at time 3, used to exercise re-completion. -/
def recompletedBase : Task :=
  { id := 1, name := "a", description := "b", deadlineDate := 0, safeDate := 0,
    completed := true, completionDate := some 3 }

/-- Witness for `markAsCompleted_overwrites_completionDate`: a task
already completed at time 3 is re-completed at time 7 and the stored
record now carries completion date 7. -/
theorem markAsCompleted_overwrites_completionDate_witness :
    { recompletedBase with completed := true, completionDate := some 7 } ∈
      markAsCompleted 7 1 [recompletedBase] :=
  markAsCompleted_overwrites_completionDate [recompletedBase] 7 1 recompletedBase
    (by simp) rfl

lemma map_map_completed_eq (f : Task → Task)
    (h : ∀ t : Task, (f t).completed = t.completed) (ts : List Task) :
    (ts.map f).map Task.completed = ts.map Task.completed := by
  induction ts with
  | nil => rfl
  | cons a ts ih => simp [h, ih]

lemma handleEditTask_map_id (i : Int) (name descr : String) (dl s : Time) (ts : List Task) :
    (handleEditTask i name descr dl s ts).map Task.id = ts.map Task.id := by
  unfold handleEditTask
  split
  · rfl
  · exact editTask_map_id _ _

/-! ### C1: what editing preserves -/

/-- The stored record an edit is applied to: completed at time 100. -/
def editExisting : Task :=
  { id := 1, name := "a", description := "b", deadlineDate := 0, safeDate := 0,
    completed := true, completionDate := some 100 }

/-- The edit input the UI form produces for that task: same id, new
name/description, no `completed` and no `completionDate` field. -/
def editInput : Task :=
  { id := 1, name := "c", description := "d", deadlineDate := 0, safeDate := 0,
    completed := false, completionDate := none }

/-- C1, counterexample to the claim as stated: editing the completed
task `editExisting` (stored completion date 100) with the form-produced
input `editInput` keeps `completed = true` but replaces the stored
`completionDate = some 100` by the input's `none` — the task found by
id does not keep its existing `completionDate`. -/
theorem edit_changes_completionDate :
    editExisting.completionDate = some 100 ∧
    editTask editInput [editExisting] =
      [{ id := 1, name := "c", description := "d", deadlineDate := 0, safeDate := 0,
         completed := true, completionDate := none }] := by
  decide

/-- C1, corrected claim: `editTask` never changes any task's `id` or
`completed` flag, but the matching task's `completionDate` is taken from
the edit input (`updatedTask`), not copied from the existing record. -/
theorem editTask_preserves_id_and_completed (u : Task) (tasks : List Task) :
    (editTask u tasks).map Task.id = tasks.map Task.id ∧
    (editTask u tasks).map Task.completed = tasks.map Task.completed ∧
    ∀ t' ∈ editTask u tasks, t'.id = u.id → t'.completionDate = u.completionDate := by
  refine ⟨editTask_map_id u tasks, ?_, ?_⟩
  · unfold editTask
    refine map_map_completed_eq _ (fun t => ?_) tasks
    split <;> rfl
  · intro t' ht' hid
    unfold editTask at ht'
    obtain ⟨t, ht, rfl⟩ := List.mem_map.mp ht'
    by_cases h : t.id = u.id
    · simp [h]
    · simp only [if_neg h] at hid ⊢
      exact absurd hid h

/-- Witness for `editTask_preserves_id_and_completed` on the concrete
edit of `edit_changes_completionDate`. -/
theorem editTask_preserves_id_and_completed_witness :
    (editTask editInput [editExisting]).map Task.id = [(1 : Int)] ∧
    (editTask editInput [editExisting]).map Task.completed = [true] ∧
    ({ id := 1, name := "c", description := "d", deadlineDate := 0, safeDate := 0,
       completed := true, completionDate := none } : Task).completionDate =
      editInput.completionDate := by
  obtain ⟨h1, h2, h3⟩ := editTask_preserves_id_and_completed editInput [editExisting]
  exact ⟨by simpa using h1, by simpa using h2, h3 _ (by decide) (by decide)⟩

/-! ### C2: the completed/completionDate invariant -/

/-- C2, corrected claim: every lifecycle operation other than edit
preserves the invariant `completed = true ⇔ completionDate is set` for
every task in the collection (add stores `completed = false` with no
completion date, complete sets both, restore clears both, delete only
removes). -/
theorem completion_invariant_preserved_by_non_edit (tasks : List Task) (op : Op)
    (hop : op.isEdit = false)
    (hinv : ∀ t ∈ tasks, completionInvariant t) :
    ∀ t ∈ applyOp tasks op, completionInvariant t := by
  intro t ht
  cases op with
  | edit i name descr dl s => simp [Op.isEdit] at hop
  | add now name descr dl s =>
    simp only [applyOp, handleAddTask] at ht
    split at ht
    · exact hinv t ht
    · simp only [addTask, List.mem_append, List.mem_singleton] at ht
      rcases ht with ht | rfl
      · exact hinv t ht
      · simp [completionInvariant]
  | complete now i =>
    simp only [applyOp, markAsCompleted] at ht
    obtain ⟨s, hs, rfl⟩ := List.mem_map.mp ht
    by_cases h : s.id = i
    · simp [h, completionInvariant]
    · simpa [h] using hinv s hs
  | restore i =>
    simp only [applyOp, restoreTask] at ht
    obtain ⟨s, hs, rfl⟩ := List.mem_map.mp ht
    by_cases h : s.id = i
    · simp [h, completionInvariant]
    · simpa [h] using hinv s hs
  | delete i =>
    simp only [applyOp, deleteTask] at ht
    exact hinv t (List.mem_filter.mp ht).1

/-- Witness for `completion_invariant_preserved_by_non_edit`:
completing the task of `[gapTask]` at time 20 yields a record that
satisfies the invariant. -/
theorem completion_invariant_preserved_by_non_edit_witness :
    completionInvariant { gapTask with completed := true, completionDate := some 20 } :=
  completion_invariant_preserved_by_non_edit [gapTask] (.complete 20 1)
    (by decide) (by decide) _ (by decide)

/-- C2, counterexample to the claim as stated: starting from the empty
collection, add a task at time 10, complete it at time 20, then edit it
through the form (which supplies no completion date): the resulting
stored task has `completed = true` with `completionDate` unset, so the
invariant does not survive the edit operation. -/
theorem completion_invariant_violated_after_edit :
    runOps [Op.add 10 "a" "b" 100 50, Op.complete 20 10, Op.edit 10 "c" "d" 100 50] [] =
      [{ id := 10, name := "c", description := "d", deadlineDate := 100, safeDate := 50,
         completed := true, completionDate := none }] ∧
    ¬ completionInvariant
      { id := 10, name := "c", description := "d", deadlineDate := 100, safeDate := 50,
        completed := true, completionDate := none } := by
  decide

/-! ### C3: first-match-wins classification -/

/-- A task completed exactly at its safe date, with
`safeDate = deadlineDate`. -/
def onSafeTask : Task :=
  { id := 2, name := "a", description := "b",
    deadlineDate := 5 * 86400000, safeDate := 5 * 86400000,
    completed := true, completionDate := some (5 * 86400000) }

/-- C3: the four bucket counters of `getTaskStats` are mutually
exclusive per task — their sum never exceeds `completedCount` — because
the classification is a first-match-wins if/else-if cascade; and a task
completed exactly on its safe date, even when `safeDate = deadlineDate`
(so the `onDeadline` test would also match), is classified `onSafeDate`
and never `onDeadline`. -/
theorem classification_exclusive_first_match (tasks : List Task) (now : Time) (t : Task)
    (h1 : t.completionDate = some t.safeDate) (h2 : t.safeDate = t.deadlineDate) :
    (getTaskStats tasks now).beforeSafeDate + (getTaskStats tasks now).onSafeDate +
        (getTaskStats tasks now).onDeadline + (getTaskStats tasks now).afterDeadline ≤
      (getTaskStats tasks now).completedCount ∧
    differenceInDays t.safeDate t.deadlineDate = 0 ∧
    classifyCompleted t = some Bucket.onSafeDate ∧
    classifyCompleted t ≠ some Bucket.onDeadline := by
  refine ⟨?_, ?_, ?_, ?_⟩
  · simp only [getTaskStats]
    exact classify_countP_sum_le _
  · simp [differenceInDays, h2, Int.zero_tdiv]
  · simp [classifyCompleted, h1, differenceInDays, Int.zero_tdiv]
  · simp [classifyCompleted, h1, differenceInDays, Int.zero_tdiv]

/-- Witness for `classification_exclusive_first_match` at `onSafeTask`,
whose safe date and deadline coincide. -/
theorem classification_exclusive_first_match_witness :
    (getTaskStats [onSafeTask] 0).beforeSafeDate + (getTaskStats [onSafeTask] 0).onSafeDate +
        (getTaskStats [onSafeTask] 0).onDeadline + (getTaskStats [onSafeTask] 0).afterDeadline ≤
      (getTaskStats [onSafeTask] 0).completedCount ∧
    differenceInDays onSafeTask.safeDate onSafeTask.deadlineDate = 0 ∧
    classifyCompleted onSafeTask = some Bucket.onSafeDate ∧
    classifyCompleted onSafeTask ≠ some Bucket.onDeadline :=
  classification_exclusive_first_match [onSafeTask] 0 onSafeTask (by decide) (by decide)

/-! ### C4: scheduled notification requests -/

/-- C4: when `daysLeft ≤ 0` the scheduler emits exactly the two
unconditional requests, triggered at the task's safe date and deadline;
when `daysLeft > 0` it emits exactly five, the three daily reminders at
08:00, 12:00 and 18:00 of `now`'s date followed by the safe-date and
deadline requests. -/
theorem schedule_request_timestamps (task : Task) (now : Time) :
    (getRemainingDays task.deadlineDate now ≤ 0 →
      (scheduleNotifications task now).map NotificationRequest.timestamp =
        [task.safeDate, task.deadlineDate]) ∧
    (0 < getRemainingDays task.deadlineDate now →
      (scheduleNotifications task now).map NotificationRequest.timestamp =
        [setHours now 8 0, setHours now 12 0, setHours now 18 0,
         task.safeDate, task.deadlineDate]) := by
  refine ⟨fun h => ?_, fun h => ?_⟩
  · simp only [scheduleNotifications]
    rw [if_neg (by omega)]
    simp
  · simp only [scheduleNotifications]
    rw [if_pos (show getRemainingDays task.deadlineDate now > 0 from h)]
    simp

/-- A task whose deadline (day 5) is already past at the scheduling
time used in the witness (day 10). -/
def pastTask : Task :=
  { id := 3, name := "p", description := "q",
    deadlineDate := 5 * 86400000, safeDate := 4 * 86400000,
    completed := false, completionDate := none }

/-- A task whose deadline is 9 days and a half ahead of the scheduling
time used in the witness (day 0 at noon). -/
def aheadTask : Task :=
  { id := 4, name := "r", description := "s",
    deadlineDate := 10 * 86400000, safeDate := 5 * 86400000,
    completed := false, completionDate := none }

/-- Witness for `schedule_request_timestamps`: a past deadline gives
exactly the two unconditional requests, and a deadline 9 days ahead
gives exactly the five requests of the claim. -/
theorem schedule_request_timestamps_witness :
    (scheduleNotifications pastTask (10 * 86400000)).map NotificationRequest.timestamp =
      [pastTask.safeDate, pastTask.deadlineDate] ∧
    (scheduleNotifications aheadTask 43200000).map NotificationRequest.timestamp =
      [setHours 43200000 8 0, setHours 43200000 12 0, setHours 43200000 18 0,
       aheadTask.safeDate, aheadTask.deadlineDate] :=
  ⟨(schedule_request_timestamps pastTask (10 * 86400000)).1 (by decide),
   (schedule_request_timestamps aheadTask 43200000).2 (by decide)⟩

/-! ### C6: completion rate -/

/-- C6: `getTaskStats` returns `completionRate = 0` on the empty
collection and otherwise exactly `100 * completedCount / totalTasks`
(in exact rational arithmetic). -/
theorem completionRate_formula (tasks : List Task) (now : Time) :
    (tasks = [] → (getTaskStats tasks now).completionRate = 0) ∧
    (tasks ≠ [] →
      (getTaskStats tasks now).completionRate =
        100 * ((getTaskStats tasks now).completedCount : Rat) /
          ((getTaskStats tasks now).totalTasks : Rat)) := by
  constructor
  · rintro rfl
    simp [getTaskStats]
  · intro h
    have hlen : tasks.length ≠ 0 := fun hl => h (List.length_eq_zero.mp hl)
    simp only [getTaskStats, if_pos hlen]
    ring

/-- Witness for `completionRate_formula` on the empty collection and on
the one-task collection `[gapTask]`. -/
theorem completionRate_formula_witness :
    (getTaskStats ([] : List Task) 0).completionRate = 0 ∧
    (getTaskStats [gapTask] 0).completionRate =
      100 * ((getTaskStats [gapTask] 0).completedCount : Rat) /
        ((getTaskStats [gapTask] 0).totalTasks : Rat) :=
  ⟨(completionRate_formula [] 0).1 rfl, (completionRate_formula [gapTask] 0).2 (by decide)⟩

/-! ### C9: distinctness of ids -/

/-- C9, counterexample to the claim as stated: two add operations in the
same clock millisecond (`new Date().getTime()` returning 5 twice)
produce two tasks with the same id — `addTask` performs no duplicate
check. -/
theorem duplicate_add_times_duplicate_ids :
    (runOps [Op.add 5 "a" "b" 0 0, Op.add 5 "a" "b" 0 0] []).map Task.id = [5, 5] ∧
    ¬ ((runOps [Op.add 5 "a" "b" 0 0, Op.add 5 "a" "b" 0 0] []).map Task.id).Nodup := by
  decide

/-- C9, corrected claim: provided the creation timestamps of the add
operations in the sequence are pairwise distinct (as with a strictly
increasing millisecond clock), the ids in the collection are pairwise
distinct after every sequence of lifecycle operations from the empty
collection: only add inserts a task, its id is its creation timestamp,
and no other operation changes any id. -/
theorem ids_nodup_of_distinct_add_times (ops : List Op)
    (h : (addTimes ops).Nodup) :
    ((runOps ops []).map Task.id).Nodup := by
  have aux : ∀ (ops : List Op) (tasks : List Task),
      (addTimes ops).Nodup → (tasks.map Task.id).Nodup →
      (∀ i ∈ tasks.map Task.id, i ∉ addTimes ops) →
      ((runOps ops tasks).map Task.id).Nodup := by
    intro ops
    induction ops with
    | nil => intro tasks _ ht _; simpa [runOps] using ht
    | cons op ops ih =>
      intro tasks hops htasks hdisj
      have hrun : runOps (op :: ops) tasks = runOps ops (applyOp tasks op) := rfl
      rw [hrun]
      cases op with
      | add now name descr dl s =>
        have hat : addTimes (Op.add now name descr dl s :: ops) = now :: addTimes ops := rfl
        rw [hat] at hops hdisj
        rw [List.nodup_cons] at hops
        by_cases hv : name = "" ∨ descr = ""
        · have happ : applyOp tasks (Op.add now name descr dl s) = tasks := by
            simp [applyOp, handleAddTask, hv]
          rw [happ]
          exact ih tasks hops.2 htasks
            fun i hi hmem => hdisj i hi (List.mem_cons_of_mem _ hmem)
        · have happ : applyOp tasks (Op.add now name descr dl s) =
              tasks ++ [⟨now, name, descr, dl, s, false, none⟩] := by
            simp [applyOp, handleAddTask, hv, addTask]
          rw [happ]
          refine ih _ hops.2 ?_ ?_
          · rw [List.map_append, List.nodup_append]
            refine ⟨htasks, by simp, ?_⟩
            intro i hi hi'
            simp only [List.map_cons, List.map_nil, List.mem_singleton] at hi'
            subst hi'
            exact hdisj i hi (by simp)
          · intro i hi
            rw [List.map_append] at hi
            rcases List.mem_append.mp hi with hi | hi
            · exact fun hmem => hdisj i hi (List.mem_cons_of_mem _ hmem)
            · simp only [List.map_cons, List.map_nil, List.mem_singleton] at hi
              subst hi
              exact hops.1
      | edit i name descr dl s =>
        have hmap := handleEditTask_map_id i name descr dl s tasks
        exact ih _ hops (hmap ▸ htasks) (hmap ▸ hdisj)
      | complete now i =>
        have hmap := markAsCompleted_map_id now i tasks
        exact ih _ hops (hmap ▸ htasks) (hmap ▸ hdisj)
      | restore i =>
        have hmap := restoreTask_map_id i tasks
        exact ih _ hops (hmap ▸ htasks) (hmap ▸ hdisj)
      | delete i =>
        have hsub : ((deleteTask i tasks).map Task.id).Sublist (tasks.map Task.id) :=
          List.Sublist.map Task.id (List.filter_sublist tasks)
        exact ih _ hops (List.Nodup.sublist hsub htasks)
          fun j hj => hdisj j (hsub.subset hj)
  exact aux ops [] h (by simp) (by simp)

/-- Witness for `ids_nodup_of_distinct_add_times`: two adds at distinct
timestamps followed by a complete and a delete leave pairwise-distinct
ids. -/
theorem ids_nodup_of_distinct_add_times_witness :
    ((runOps [Op.add 1 "a" "b" 0 0, Op.add 2 "a" "b" 0 0, Op.complete 5 1, Op.delete 2] []).map
        Task.id).Nodup :=
  ids_nodup_of_distinct_add_times
    [Op.add 1 "a" "b" 0 0, Op.add 2 "a" "b" 0 0, Op.complete 5 1, Op.delete 2] (by decide)

end TaskManager
